import Mathlib

/-!
Verification development for the PCAP traffic-compaction pipeline
(`web/pcap_compactor`).  The Python modules under `intake/` and `pipeline/`
are shallowly embedded as Lean definitions: Python dicts become association
lists, Python sets become `Finset`, timestamps (Python floats holding epoch
seconds) become `Int` (exact integral epoch seconds: every claim involving
timestamps is order-theoretic, and subtraction/comparison stay exact), byte strings become `List Nat`, and the per-token
random draws of the binomial sampler become an explicit list of booleans.
The Isolation-Forest classifier (an external library call) is abstracted as
a `fitPredict` parameter, exactly the single-capability interface the design
notes prescribe.  The hourly orchestrator (`orchestration/runner.py`) is not
part of the embedded sources; the single place where its glue is needed is
marked as modelled from the specification.
-/

namespace PcapCompactor

/-- Byte strings are modelled as lists of naturals (each intended < 256). -/
abbrev Bytes := List Nat

/-- Transport discriminator from `dto.py` (`Transport = Literal["tcp","udp","other"]`). -/
inductive Transport where
  | tcp
  | udp
  | other
deriving DecidableEq, Repr

/-- Embeds `dto.PacketRecord`: minimal per-packet view. `tcp_flags` is the
optional TCP flag bitmask, `payload_preview` the optional short payload. -/
structure PacketRecord where
  ts : Int
  src_ip : String
  dst_ip : String
  src_port : Nat
  dst_port : Nat
  transport : Transport
  tcp_flags : Option Nat
  length : Nat
  payload_preview : Option Bytes := none
deriving DecidableEq, Repr

/-- Embeds `dto.GroupKey`: five-tuple root excluding the ephemeral source port. -/
structure GroupKey where
  src_ip : String
  dst_ip : String
  dst_port : Nat
  transport : Transport
  service : String
deriving DecidableEq, Repr

/-- Embeds `dto.GroupAggregate`.  The Python `tcp_flags` dict always holds
exactly the keys syn/ack/rst/fin (created so by `_new_aggregate`), so it is
embedded as four counters.  The payload preview buffers that `features.py`
attaches dynamically (`_payload_up`, `_payload_dn`, defaulting to `[]` via
`getattr`) are embedded as explicit list fields defaulting to `[]`. -/
structure GroupAggregate where
  key : GroupKey
  first_ts : Int
  last_ts : Int
  pkts_up : Nat
  pkts_dn : Nat
  bytes_up : Nat
  bytes_dn : Nat
  flags_syn : Nat
  flags_ack : Nat
  flags_rst : Nat
  flags_fin : Nat
  http_uri_tokens : Option (List String) := none
  ftp_cmd_counts : Option (List (String × Nat)) := none
  smb_cmd_counts : Option (List (String × Nat)) := none
  payload_up : List Bytes := []
  payload_dn : List Bytes := []
deriving DecidableEq, Repr

/-- Embeds `dto.SegmentHandle`.  The compressor label is kept as a raw string
because `validator.py` compares it against the literals "none"/"gzip"/"zstd"
and falls through to `False` on anything else. -/
structure SegmentHandle where
  id : String
  sensor : String
  start_ts : Int
  end_ts : Int
  path : String
  compressor : String
deriving DecidableEq, Repr

/-- Embeds `dto.ScanSummary`. -/
structure ScanSummary where
  src_ip : String
  window : Nat × Nat
  unique_dsts : Nat
  unique_ports : Nat
  syn_only_ratio : Rat
  sample_targets : List (String × Nat)
deriving DecidableEq, Repr

/-! ## Segment validation (`intake/validator.py`) -/

/-- Magic bytes `a1 b2 c3 d4` (classic PCAP, microsecond, big endian). -/
def MAGIC_PCAP_USEC_BE : Bytes := [0xa1, 0xb2, 0xc3, 0xd4]

/-- Magic bytes `d4 c3 b2 a1` (classic PCAP, microsecond, little endian). -/
def MAGIC_PCAP_USEC_LE : Bytes := [0xd4, 0xc3, 0xb2, 0xa1]

/-- Magic bytes `a1 b2 3c 4d` (classic PCAP, nanosecond, big endian). -/
def MAGIC_PCAP_NSEC_BE : Bytes := [0xa1, 0xb2, 0x3c, 0x4d]

/-- Magic bytes `4d 3c b2 a1` (classic PCAP, nanosecond, little endian). -/
def MAGIC_PCAP_NSEC_LE : Bytes := [0x4d, 0x3c, 0xb2, 0xa1]

/-- Magic bytes `0a 0d 0d 0a` (PCAPNG section header block). -/
def MAGIC_PCAPNG : Bytes := [0x0a, 0x0d, 0x0d, 0x0a]

/-- Gzip magic bytes `1f 8b`. -/
def MAGIC_GZIP : Bytes := [0x1f, 0x8b]

/-- Zstd magic bytes `28 b5 2f fd`. -/
def MAGIC_ZSTD : Bytes := [0x28, 0xb5, 0x2f, 0xfd]

/-- Embeds `validator._looks_like_uncompressed_pcap`. -/
def looks_like_uncompressed_pcap (head : Bytes) : Bool :=
  if head.length < 4 then false
  else
    let sig4 := head.take 4
    if sig4 = MAGIC_PCAP_USEC_BE ∨ sig4 = MAGIC_PCAP_USEC_LE ∨
        sig4 = MAGIC_PCAP_NSEC_BE ∨ sig4 = MAGIC_PCAP_NSEC_LE then true
    else if sig4 = MAGIC_PCAPNG then true
    else false

/-- Embeds `validator._looks_like_gzip`. -/
def looks_like_gzip (head : Bytes) : Bool :=
  decide (2 ≤ head.length ∧ head.take 2 = MAGIC_GZIP)

/-- Embeds `validator._looks_like_zstd`. -/
def looks_like_zstd (head : Bytes) : Bool :=
  decide (4 ≤ head.length ∧ head.take 4 = MAGIC_ZSTD)

/-- A filesystem is modelled as a partial map from paths to file contents;
`none` stands for a missing file (`os.stat` raising `FileNotFoundError`). -/
abbrev FileSystem := String → Option Bytes

/-- Embeds `validator.validate_segment`: missing file, size under 24 bytes,
or a magic mismatch for the declared compressor all yield `false`; the
function is total, mirroring the fact that the Python code catches the only
exception its I/O can raise and signals by returning a boolean. -/
def validate_segment (fs : FileSystem) (seg : SegmentHandle) : Bool :=
  match fs seg.path with
  | none => false
  | some data =>
    if data.length < 24 then false
    else
      let head := data.take 16
      if seg.compressor = "none" then looks_like_uncompressed_pcap head
      else if seg.compressor = "gzip" then looks_like_gzip head
      else if seg.compressor = "zstd" then looks_like_zstd head
      else false

/-! ## Quantization (`pipeline/quantize.py`) -/

/-- Embeds `quantize._log_bin`: floored base-`base` logarithm of a
non-negative integer, 0 for non-positive input, with the defensive reset of
a degenerate base (≤ 1) to 2.  The float computation
`math.floor(math.log(x, base))` is idealized over the reals. -/
noncomputable def log_bin (x : Int) (base : ℝ) : Int :=
  if x ≤ 0 then 0
  else
    let b := if base ≤ 1 then (2 : ℝ) else base
    ⌊Real.logb b (x : ℝ)⌋

/-- Embeds `quantize._linear_bin`: identity clamped to non-negative. -/
def linear_bin (x : Int) : Int := max 0 x

/-- Record of the nine integer tokens produced by `quantize.quantize_tokens`. -/
structure QuantTokens where
  pkts_up_bin : Int
  pkts_dn_bin : Int
  bytes_up_bin : Int
  bytes_dn_bin : Int
  dur_bin : Int
  syn_bin : Int
  ack_bin : Int
  rst_bin : Int
  fin_bin : Int

/-- Embeds `quantize.quantize_tokens`.  The counts/flags dicts are passed as
their four members each; duration is handled by the same log-binning applied
to its (here rational, idealized to real) value. -/
noncomputable def quantize_tokens (pkts_up pkts_dn bytes_up bytes_dn : Int)
    (duration_s : ℝ) (syn ack rst fin : Int)
    (count_log_base duration_log_base : ℝ) : QuantTokens :=
  { pkts_up_bin := log_bin pkts_up count_log_base
    pkts_dn_bin := log_bin pkts_dn count_log_base
    bytes_up_bin := log_bin bytes_up count_log_base
    bytes_dn_bin := log_bin bytes_dn count_log_base
    dur_bin :=
      if max 0 duration_s ≤ 0 then 0
      else
        let b := if duration_log_base ≤ 1 then (2 : ℝ) else duration_log_base
        ⌊Real.logb b (max 0 duration_s)⌋
    syn_bin := linear_bin syn
    ack_bin := linear_bin ack
    rst_bin := linear_bin rst
    fin_bin := linear_bin fin }

/-! ## Grouping (`pipeline/grouping.py`) -/

/-- Packet direction relative to a `GroupKey`. -/
inductive Direction where
  | up
  | dn
deriving DecidableEq, Repr

/-- Embeds `grouping.group_direction`: up when the packet runs key-src to
key-dst, dn for the reverse, and the defensive default up otherwise. -/
def group_direction (pkt : PacketRecord) (key : GroupKey) : Direction :=
  if pkt.src_ip = key.src_ip ∧ pkt.dst_ip = key.dst_ip then .up
  else if pkt.src_ip = key.dst_ip ∧ pkt.dst_ip = key.src_ip then .dn
  else .up

/-- Embeds `AggregatorShard._new_aggregate`: fresh aggregate with both
timestamps at `ts`, all counters zero, no enrichments, empty buffers. -/
def new_aggregate (key : GroupKey) (ts : Int) : GroupAggregate :=
  { key := key
    first_ts := ts
    last_ts := ts
    pkts_up := 0
    pkts_dn := 0
    bytes_up := 0
    bytes_dn := 0
    flags_syn := 0
    flags_ack := 0
    flags_rst := 0
    flags_fin := 0
    http_uri_tokens := none
    ftp_cmd_counts := none
    smb_cmd_counts := none
    payload_up := []
    payload_dn := [] }

/-! ## Feature updates (`pipeline/features.py`)

The Python function mutates one aggregate in four successive blocks (time
bounds, directional counters, TCP flag histogram, payload preview stash);
each block is embedded as one function and `update_aggregate` is their
composition in source order. -/

/-- TCP FIN bitmask (0x01). -/
def TCP_FIN : Nat := 0x01

/-- TCP SYN bitmask (0x02). -/
def TCP_SYN : Nat := 0x02

/-- TCP RST bitmask (0x04). -/
def TCP_RST : Nat := 0x04

/-- TCP ACK bitmask (0x10). -/
def TCP_ACK : Nat := 0x10

/-- Payload preview cap per aggregate per direction (`_MAX_PREVIEWS_PER_DIR`). -/
def MAX_PREVIEWS_PER_DIR : Nat := 12

/-- Time-bounds block of `features.update_aggregate`. -/
def upd_time (agg : GroupAggregate) (pkt : PacketRecord) : GroupAggregate :=
  let agg := if pkt.ts < agg.first_ts then { agg with first_ts := pkt.ts } else agg
  if pkt.ts > agg.last_ts then { agg with last_ts := pkt.ts } else agg

/-- Directional-counters block of `features.update_aggregate`. -/
def upd_counters (agg : GroupAggregate) (pkt : PacketRecord) (direction : Direction) :
    GroupAggregate :=
  match direction with
  | .up => { agg with pkts_up := agg.pkts_up + 1, bytes_up := agg.bytes_up + pkt.length }
  | .dn => { agg with pkts_dn := agg.pkts_dn + 1, bytes_dn := agg.bytes_dn + pkt.length }

/-- TCP-flag-histogram block of `features.update_aggregate` (each of the four
flags increments independently). -/
def upd_flags (agg : GroupAggregate) (pkt : PacketRecord) : GroupAggregate :=
  match pkt.tcp_flags with
  | none => agg
  | some flags =>
    let agg := if flags.land TCP_SYN ≠ 0 then { agg with flags_syn := agg.flags_syn + 1 } else agg
    let agg := if flags.land TCP_ACK ≠ 0 then { agg with flags_ack := agg.flags_ack + 1 } else agg
    let agg := if flags.land TCP_RST ≠ 0 then { agg with flags_rst := agg.flags_rst + 1 } else agg
    if flags.land TCP_FIN ≠ 0 then { agg with flags_fin := agg.flags_fin + 1 } else agg

/-- Payload-preview block of `features.update_aggregate`: a preview is
stashed only when present and non-empty (Python truthiness of bytes) and only
while the per-direction buffer is below the cap. -/
def upd_previews (agg : GroupAggregate) (pkt : PacketRecord) (direction : Direction) :
    GroupAggregate :=
  match pkt.payload_preview with
  | none => agg
  | some pv =>
    if pv = [] then agg
    else
      match direction with
      | .up =>
        if agg.payload_up.length < MAX_PREVIEWS_PER_DIR then
          { agg with payload_up := agg.payload_up ++ [pv] }
        else agg
      | .dn =>
        if agg.payload_dn.length < MAX_PREVIEWS_PER_DIR then
          { agg with payload_dn := agg.payload_dn ++ [pv] }
        else agg

/-- Embeds `features.update_aggregate` as the composition of its four blocks
in source order. -/
def update_aggregate (agg : GroupAggregate) (pkt : PacketRecord) (direction : Direction) :
    GroupAggregate :=
  upd_previews (upd_flags (upd_counters (upd_time agg pkt) pkt direction) pkt) pkt direction

/-- Embeds `features.finalize_aggregate` (duration floored at zero plus the
copied counters; the dict results are returned as a flat tuple). -/
def finalize_aggregate (agg : GroupAggregate) :
    Int × (Nat × Nat × Nat × Nat) × (Nat × Nat × Nat × Nat) :=
  (max 0 (agg.last_ts - agg.first_ts),
   (agg.pkts_up, agg.pkts_dn, agg.bytes_up, agg.bytes_dn),
   (agg.flags_syn, agg.flags_ack, agg.flags_rst, agg.flags_fin))

/-! ## Aggregator shard (`pipeline/grouping.py`) -/

/-- Association-list lookup standing for a Python dict read. -/
def lookupKey (l : List (GroupKey × GroupAggregate)) (k : GroupKey) : Option GroupAggregate :=
  match l with
  | [] => none
  | (k₀, a) :: rest => if k₀ = k then some a else lookupKey rest k

/-- Association-list write standing for a Python dict assignment: replaces
the binding in place when the key is present, appends otherwise (matching
dict insertion-order semantics). -/
def setKey (l : List (GroupKey × GroupAggregate)) (k : GroupKey) (a : GroupAggregate) :
    List (GroupKey × GroupAggregate) :=
  match l with
  | [] => [(k, a)]
  | (k₀, a₀) :: rest => if k₀ = k then (k₀, a) :: rest else (k₀, a₀) :: setKey rest k a

/-- Embeds the state of `grouping.AggregatorShard`: the idle threshold, the
open-aggregates dict, and the finalized list. -/
structure AggregatorShard where
  idle : Int
  openAggs : List (GroupKey × GroupAggregate)
  finalized : List GroupAggregate
deriving DecidableEq, Repr

/-- Embeds `AggregatorShard.get_or_create`: returns the (possibly fresh)
open aggregate for `key` plus the updated shard, rolling the current
aggregate into the finalized list when the idle gap is exceeded. -/
def get_or_create (sh : AggregatorShard) (key : GroupKey) (ts : Int) :
    AggregatorShard × GroupAggregate :=
  match lookupKey sh.openAggs key with
  | none =>
    let agg := new_aggregate key ts
    ({ sh with openAggs := setKey sh.openAggs key agg }, agg)
  | some agg =>
    if ts - agg.last_ts > sh.idle then
      let fresh := new_aggregate key ts
      ({ sh with finalized := sh.finalized ++ [agg],
                 openAggs := setKey sh.openAggs key fresh }, fresh)
    else (sh, agg)

/-- Embeds `AggregatorShard.finalize_all`: previously rolled aggregates
followed by the still-open ones in insertion order. -/
def finalize_all (sh : AggregatorShard) : List GroupAggregate :=
  sh.finalized ++ sh.openAggs.map (·.2)

/-- Modelled from the spec: the per-packet grouping step of the hourly
orchestrator (`run_hour`, whose module is not among the embedded sources)
routes one in-window packet through `get_or_create` and then
`update_aggregate` on the returned aggregate, with the direction computed by
`group_direction` (spec section 4.7).  Because the Python aggregate is
mutated in place while the dict entry keeps pointing at it, the update is
written back to the open slot here. -/
def process_packet (sh : AggregatorShard) (pkt : PacketRecord) (key : GroupKey) :
    AggregatorShard :=
  let (sh₁, agg) := get_or_create sh key pkt.ts
  let agg₁ := update_aggregate agg pkt (group_direction pkt key)
  { sh₁ with openAggs := setKey sh₁.openAggs key agg₁ }

/-- Fold of `process_packet` over a packet sequence on one key. -/
def run_packets (sh : AggregatorShard) (key : GroupKey) (pkts : List PacketRecord) :
    AggregatorShard :=
  pkts.foldl (fun s p => process_packet s p key) sh

/-! ## Scan gate (`pipeline/scan.py`) -/

/-- Embeds `scan._SourceStats`.  The Python sets become `Finset`. -/
structure SourceStats where
  unique_dsts : Finset String
  unique_ports : Finset Nat
  syn_only_pkts : Nat
  tcp_pkts : Nat
  sample_targets : List (String × Nat)
deriving DecidableEq

/-- Fresh `_SourceStats` as constructed on first observation of a source. -/
def freshStats : SourceStats :=
  { unique_dsts := ∅
    unique_ports := ∅
    syn_only_pkts := 0
    tcp_pkts := 0
    sample_targets := [] }

/-- Embeds the state of `scan.ScanGate`.  The Isolation-Forest knobs
(contamination, estimator count, random state) only parameterize the external
classifier, which is abstracted below as a `fitPredict` argument, so they are
not carried in the state. -/
structure ScanGate where
  threshold : Nat
  sample_cap : Nat
  by_src : List (String × SourceStats)
deriving DecidableEq

/-- Association-list lookup standing for a Python dict read (per-source stats). -/
def lookupSrc (l : List (String × SourceStats)) (k : String) : Option SourceStats :=
  match l with
  | [] => none
  | (k₀, s) :: rest => if k₀ = k then some s else lookupSrc rest k

/-- Update-or-insert on the per-source stats dict: the Python code fetches
the entry (creating a fresh one and storing it when absent) and then mutates
it in place. -/
def upsertSrc (l : List (String × SourceStats)) (k : String) (f : SourceStats → SourceStats) :
    List (String × SourceStats) :=
  match l with
  | [] => [(k, f freshStats)]
  | (k₀, s) :: rest => if k₀ = k then (k₀, f s) :: rest else (k₀, s) :: upsertSrc rest k f

/-- Body of `ScanGate.observe_packet` acting on one `_SourceStats` value:
fan-out sets, capped target sample, and the TCP / SYN-without-ACK counters. -/
def observe_update (g : ScanGate) (pkt : PacketRecord) (key : GroupKey)
    (s : SourceStats) : SourceStats :=
  let s := { s with unique_dsts := insert key.dst_ip s.unique_dsts,
                    unique_ports := insert key.dst_port s.unique_ports }
  let s :=
    if s.sample_targets.length < g.sample_cap then
      { s with sample_targets := s.sample_targets ++ [(key.dst_ip, key.dst_port)] }
    else s
  match pkt.tcp_flags with
  | none => s
  | some flags =>
    let s := { s with tcp_pkts := s.tcp_pkts + 1 }
    if flags.land TCP_SYN ≠ 0 ∧ flags.land TCP_ACK = 0 then
      { s with syn_only_pkts := s.syn_only_pkts + 1 }
    else s

/-- Embeds `ScanGate.observe_packet` (the source observed is `key.src_ip`,
which the orchestrator derives from the packet). -/
def observe_packet (g : ScanGate) (pkt : PacketRecord) (key : GroupKey) : ScanGate :=
  { g with by_src := upsertSrc g.by_src key.src_ip (observe_update g pkt key) }

/-- Embeds `ScanGate.candidates`: sources whose unique-destination count
strictly exceeds the threshold, in dict iteration (insertion) order. -/
def candidates (g : ScanGate) : List String :=
  (g.by_src.filter (fun p => decide (g.threshold < p.2.unique_dsts.card))).map (·.1)

/-- SYN-only ratio of one source as computed in the split (0 when no TCP
packets were seen); float division idealized over the rationals. -/
def syn_only_ratio (s : SourceStats) : Rat :=
  if 0 < s.tcp_pkts then (s.syn_only_pkts : Rat) / (s.tcp_pkts : Rat) else 0

/-- Classification loop of the split: zip candidate sources with labels and
route label 1 (inlier) into summaries plus the repetitive set, anything else
into the outlier set. -/
def split_classify (g : ScanGate) (pairs : List (String × Int)) :
    (List ScanSummary × Finset String) × Finset String :=
  match pairs with
  | [] => (([], ∅), ∅)
  | (src, lbl) :: rest =>
    let ((sums, reps), outs) := split_classify g rest
    let s := (lookupSrc g.by_src src).getD freshStats
    if lbl = 1 then
      ((⟨src, (0, 0), s.unique_dsts.card, s.unique_ports.card,
          syn_only_ratio s, s.sample_targets⟩ :: sums, insert src reps), outs)
    else ((sums, reps), insert src outs)

/-- Embeds `ScanGate.split_repetitive_vs_outliers`.  The Isolation-Forest
call is abstracted as `fitPredict` mapping the per-candidate feature vector
(the SYN-only ratios) to integer labels (1 = inlier / repetitive, -1 =
outlier); no candidates yields empty results, fewer than 3 candidates skips
the model and makes every candidate an outlier. -/
def split_repetitive_vs_outliers (g : ScanGate) (fitPredict : List Rat → List Int) :
    (List ScanSummary × Finset String) × Finset String :=
  let cands := candidates g
  if cands = [] then (([], ∅), ∅)
  else
    let ratios := cands.map (fun src => syn_only_ratio ((lookupSrc g.by_src src).getD freshStats))
    if ratios.length < 3 then (([], ∅), cands.toFinset)
    else
      let labels := fitPredict ratios
      split_classify g (cands.zip labels)

/-! ## HTTP token sampling (`pipeline/sampling.py`) -/

/-- Bernoulli keep-decisions for the non-lexicon tokens: token `i` is kept
when the `i`-th draw is `true` (one `random.random() < p` draw per token;
missing draws count as not kept, and the theorems quantify over all draw
lists). -/
def select_by_draws (tokens : List String) (draws : List Bool) : List String :=
  match tokens, draws with
  | [], _ => []
  | _ :: _, [] => []
  | t :: rest, d :: ds => if d then t :: select_by_draws rest ds else select_by_draws rest ds

/-- Embeds `sampling.apply_http_binomial_sampling`.  Returns the updated
aggregate together with the boolean the Python function returns.  The
always-keep set is given as a list (membership is what matters); `budget` is
a Python int, hence `Int` here.  The random draws are an explicit argument. -/
def apply_http_binomial_sampling (agg : GroupAggregate) (budget : Int)
    (always_keep : List String) (draws : List Bool) : GroupAggregate × Bool :=
  match agg.http_uri_tokens with
  | none => (agg, false)
  | some tokens =>
    if tokens.isEmpty ∨ budget ≤ 0 then (agg, false)
    else
      let ak_tokens := tokens.filter (fun t => decide (t ∈ always_keep))
      let other_tokens := tokens.filter (fun t => decide (t ∉ always_keep))
      if (tokens.length : Int) ≤ budget then (agg, false)
      else
        let remaining_budget : Int := max 0 (budget - ak_tokens.length)
        if other_tokens.length = 0 then
          ({ agg with http_uri_tokens := some (ak_tokens.take budget.toNat) }, true)
        else
          let p : Rat :=
            if 0 < remaining_budget then
              min 1 ((remaining_budget : Rat) / (other_tokens.length : Rat))
            else 0
          let sampled :=
            if 1 ≤ p then other_tokens
            else if p ≤ 0 then []
            else select_by_draws other_tokens draws
          let combined := ak_tokens ++ sampled
          let combined :=
            if budget < (combined.length : Int) then combined.take budget.toNat else combined
          ({ agg with http_uri_tokens := some combined }, true)

/-! ## Theorems -/

/-- Helper: taking a prefix of a prefix collapses to the shorter prefix. -/
lemma take_take_four (data : Bytes) : (data.take 16).take 4 = data.take 4 := by
  rw [List.take_take]
  norm_num

/-- C7: `validate_segment` never raises (it is a total boolean function) and
returns `false` exactly on invalid segments: missing file, size under 24
bytes, or leading magic bytes that do not match the declared
container/compressor; a classic PCAP file of at least 24 bytes starting with
`a1 b2 c3 d4` and declared compressor "none" passes. -/
theorem validate_segment_spec :
    (∀ (fs : FileSystem) (seg : SegmentHandle), fs seg.path = none →
      validate_segment fs seg = false) ∧
    (∀ (fs : FileSystem) (seg : SegmentHandle) (data : Bytes), fs seg.path = some data →
      data.length < 24 → validate_segment fs seg = false) ∧
    (∀ (fs : FileSystem) (seg : SegmentHandle) (data : Bytes), fs seg.path = some data →
      seg.compressor = "none" → 24 ≤ data.length → data.take 4 = MAGIC_PCAP_USEC_BE →
      validate_segment fs seg = true) ∧
    (∀ (fs : FileSystem) (seg : SegmentHandle) (data : Bytes), fs seg.path = some data →
      seg.compressor = "none" →
      data.take 4 ≠ MAGIC_PCAP_USEC_BE → data.take 4 ≠ MAGIC_PCAP_USEC_LE →
      data.take 4 ≠ MAGIC_PCAP_NSEC_BE → data.take 4 ≠ MAGIC_PCAP_NSEC_LE →
      data.take 4 ≠ MAGIC_PCAPNG → validate_segment fs seg = false) ∧
    (∀ (fs : FileSystem) (seg : SegmentHandle) (data : Bytes), fs seg.path = some data →
      seg.compressor = "gzip" → data.take 2 ≠ MAGIC_GZIP →
      validate_segment fs seg = false) ∧
    (∀ (fs : FileSystem) (seg : SegmentHandle) (data : Bytes), fs seg.path = some data →
      seg.compressor = "zstd" → data.take 4 ≠ MAGIC_ZSTD →
      validate_segment fs seg = false) := by
  refine ⟨?_, ?_, ?_, ?_, ?_, ?_⟩
  · intro fs seg h
    simp [validate_segment, h]
  · intro fs seg data h hlen
    simp [validate_segment, h, hlen]
  · intro fs seg data h hc hlen hmagic
    have hlen24 : ¬ data.length < 24 := by omega
    have hhead : ¬ (data.take 16).length < 4 := by
      simp only [List.length_take]
      omega
    simp only [validate_segment, h, hlen24, if_false, hc, if_true,
      looks_like_uncompressed_pcap, hhead, take_take_four, hmagic]
    simp
  · intro fs seg data h hc h1 h2 h3 h4 h5
    simp only [validate_segment, h, hc, if_true, looks_like_uncompressed_pcap,
      take_take_four]
    split
    · rfl
    · simp [h1, h2, h3, h4, h5]
  · intro fs seg data h hc hm
    have htt : (data.take 16).take 2 = data.take 2 := by
      rw [List.take_take]; norm_num
    by_cases hcn : seg.compressor = "none"
    · rw [hcn] at hc; simp at hc
    · simp [validate_segment, h, hc, hcn, looks_like_gzip, htt, hm]
  · intro fs seg data h hc hm
    by_cases hcn : seg.compressor = "none"
    · rw [hcn] at hc; simp at hc
    · by_cases hcg : seg.compressor = "gzip"
      · rw [hcg] at hc; simp at hc
      · simp [validate_segment, h, hc, hcn, hcg, looks_like_zstd, take_take_four, hm]

/-- A well-formed 24-byte classic PCAP global header (all-zero tail). -/
def okBytes : Bytes := MAGIC_PCAP_USEC_BE ++ List.replicate 20 0

/-- A 10-byte file (too short to validate). -/
def shortBytes : Bytes := List.replicate 10 0

/-- Concrete four-file filesystem used by the validator witness. -/
def fsW : FileSystem := fun p =>
  if p = "/cap/ok.pcap" then some okBytes
  else if p = "/cap/short.pcap" then some shortBytes
  else if p = "/cap/zero.pcap" then some []
  else none

/-- Segment handle for the valid classic PCAP file. -/
def segOk : SegmentHandle :=
  ⟨"ok", "s1", 0, 0, "/cap/ok.pcap", "none"⟩

/-- Segment handle for the 10-byte file. -/
def segShort : SegmentHandle :=
  ⟨"short", "s1", 0, 0, "/cap/short.pcap", "none"⟩

/-- Segment handle for the zero-byte file. -/
def segZero : SegmentHandle :=
  ⟨"zero", "s1", 0, 0, "/cap/zero.pcap", "none"⟩

/-- Segment handle whose path is absent from the filesystem. -/
def segMissing : SegmentHandle :=
  ⟨"missing", "s1", 0, 0, "/cap/missing.pcap", "none"⟩

/-- Witness for C7 at concrete files: the ≥24-byte classic PCAP passes, the
10-byte and zero-byte files fail, and a missing file fails. -/
theorem validate_segment_spec_witness :
    validate_segment fsW segOk = true ∧
    validate_segment fsW segShort = false ∧
    validate_segment fsW segZero = false ∧
    validate_segment fsW segMissing = false :=
  ⟨validate_segment_spec.2.2.1 fsW segOk okBytes (by decide) rfl (by decide) (by decide),
   validate_segment_spec.2.1 fsW segShort shortBytes (by decide) (by decide),
   validate_segment_spec.2.1 fsW segZero [] (by decide) (by decide),
   validate_segment_spec.1 fsW segMissing (by decide)⟩

/-- C4: a source IP is returned by `candidates` iff its recorded
unique-destination count strictly exceeds the threshold; in particular a
single-source gate sitting exactly at the threshold yields no candidate and
one destination above the threshold yields a candidate. -/
theorem scan_candidates_iff_threshold_exceeded :
    (∀ (g : ScanGate) (src : String),
      src ∈ candidates g ↔ ∃ s, (src, s) ∈ g.by_src ∧ g.threshold < s.unique_dsts.card) ∧
    (∀ (g : ScanGate) (src : String) (s : SourceStats), g.by_src = [(src, s)] →
      s.unique_dsts.card = g.threshold → src ∉ candidates g) ∧
    (∀ (g : ScanGate) (src : String) (s : SourceStats), g.by_src = [(src, s)] →
      s.unique_dsts.card = g.threshold + 1 → src ∈ candidates g) := by
  have hiff : ∀ (g : ScanGate) (src : String),
      src ∈ candidates g ↔ ∃ s, (src, s) ∈ g.by_src ∧ g.threshold < s.unique_dsts.card := by
    intro g src
    simp only [candidates, List.mem_map, List.mem_filter, decide_eq_true_eq]
    constructor
    · rintro ⟨⟨a, s⟩, ⟨hmem, hcard⟩, rfl⟩
      exact ⟨s, hmem, hcard⟩
    · rintro ⟨s, hmem, hcard⟩
      exact ⟨(src, s), ⟨hmem, hcard⟩, rfl⟩
  refine ⟨hiff, ?_, ?_⟩
  · intro g src s hby hcard hmem
    rcases (hiff g src).mp hmem with ⟨s₁, hmem₁, hcard₁⟩
    rw [hby] at hmem₁
    simp at hmem₁
    rw [hmem₁] at hcard₁
    omega
  · intro g src s hby hcard
    exact (hiff g src).mpr ⟨s, by simp [hby], by omega⟩

/-- Source stats contacting exactly two distinct destinations. -/
def statsTwoDsts : SourceStats :=
  { unique_dsts := {"10.1.0.1", "10.1.0.2"}
    unique_ports := {80}
    syn_only_pkts := 0
    tcp_pkts := 0
    sample_targets := [] }

/-- One-source gate with threshold 2: the source sits exactly at the
threshold. -/
def gateAt : ScanGate := ⟨2, 20, [("client", statsTwoDsts)]⟩

/-- One-source gate with threshold 1: the source exceeds the threshold by
one. -/
def gateAbove : ScanGate := ⟨1, 20, [("client", statsTwoDsts)]⟩

/-- Witness for C4: with two distinct destinations recorded, threshold 2
yields no candidate and threshold 1 yields a candidate. -/
theorem scan_candidates_iff_threshold_exceeded_witness :
    "client" ∉ candidates gateAt ∧ "client" ∈ candidates gateAbove :=
  ⟨scan_candidates_iff_threshold_exceeded.2.1 gateAt "client" statsTwoDsts rfl (by decide),
   scan_candidates_iff_threshold_exceeded.2.2 gateAbove "client" statsTwoDsts rfl (by decide)⟩

/-- C5: with fewer than 3 scan-candidates the split never consults the
anomaly model: it returns zero `ScanSummary` records, an empty
repetitive-source set, and every candidate as an outlier, for any classifier
whatsoever. -/
theorem split_skips_model_below_three_candidates
    (g : ScanGate) (fitPredict : List Rat → List Int)
    (hfew : (candidates g).length < 3) :
    split_repetitive_vs_outliers g fitPredict = (([], ∅), (candidates g).toFinset) := by
  unfold split_repetitive_vs_outliers
  by_cases hc : candidates g = []
  · simp [hc]
  · have hlen : ((candidates g).map
        (fun src => syn_only_ratio ((lookupSrc g.by_src src).getD freshStats))).length < 3 := by
      rw [List.length_map]
      exact hfew
    simp only [hc, if_false, hlen, if_true]

/-- Source stats for the first witness scanner (two distinct destinations). -/
def statsScanA : SourceStats :=
  { unique_dsts := {"10.2.0.1", "10.2.0.2"}
    unique_ports := {80}
    syn_only_pkts := 2
    tcp_pkts := 2
    sample_targets := [("10.2.0.1", 80), ("10.2.0.2", 80)] }

/-- Source stats for the second witness scanner (two distinct destinations). -/
def statsScanB : SourceStats :=
  { unique_dsts := {"10.3.0.1", "10.3.0.2"}
    unique_ports := {22}
    syn_only_pkts := 0
    tcp_pkts := 4
    sample_targets := [("10.3.0.1", 22), ("10.3.0.2", 22)] }

/-- Gate holding exactly two scan-candidates (threshold 1, two sources with
two distinct destinations each). -/
def gateTwoCands : ScanGate := ⟨1, 20, [("src-a", statsScanA), ("src-b", statsScanB)]⟩

/-- Witness for C5: with exactly two candidates the split returns no
summaries, no repetitive sources, and both candidates as outliers (the
classifier argument is irrelevant). -/
theorem split_skips_model_below_three_candidates_witness :
    (candidates gateTwoCands).length < 3 ∧
    split_repetitive_vs_outliers gateTwoCands (fun _ => []) =
      (([], ∅), {"src-a", "src-b"}) :=
  ⟨by decide,
   (split_skips_model_below_three_candidates gateTwoCands (fun _ => []) (by decide)).trans
     (by decide)⟩

/-- C3: for any base > 1 the binning function `log_bin` used by
`quantize_tokens` is monotone on non-negative integers, maps 0 to 0, and
equals the floored base-`base` logarithm on positive inputs; moreover
`quantize_tokens` applies exactly this function to each of the four
counters. -/
theorem log_bin_monotone_and_floor (base : ℝ) (x1 x2 : Int) (hb : 1 < base) :
    (0 ≤ x1 → x1 < x2 → log_bin x1 base ≤ log_bin x2 base) ∧
    log_bin 0 base = 0 ∧
    (0 < x1 → log_bin x1 base = ⌊Real.logb base (x1 : ℝ)⌋) ∧
    (∀ (pu pn bu bn syn ack rst fin : Int) (dur dbase : ℝ),
      (quantize_tokens pu pn bu bn dur syn ack rst fin base dbase).pkts_up_bin =
        log_bin pu base ∧
      (quantize_tokens pu pn bu bn dur syn ack rst fin base dbase).pkts_dn_bin =
        log_bin pn base ∧
      (quantize_tokens pu pn bu bn dur syn ack rst fin base dbase).bytes_up_bin =
        log_bin bu base ∧
      (quantize_tokens pu pn bu bn dur syn ack rst fin base dbase).bytes_dn_bin =
        log_bin bn base) := by
  have hbase : ¬ base ≤ 1 := not_le.mpr hb
  have hval : ∀ x : Int, 0 < x → log_bin x base = ⌊Real.logb base (x : ℝ)⌋ := by
    intro x hx
    unfold log_bin
    rw [if_neg (not_le.mpr hx)]
    simp only [hbase, if_false]
  refine ⟨?_, ?_, hval x1, ?_⟩
  · intro h0 hlt
    rcases lt_or_eq_of_le h0 with hpos | hzero
    · rw [hval x1 hpos, hval x2 (hpos.trans hlt)]
      apply Int.floor_mono
      apply Real.logb_le_logb_of_le hb
      · exact_mod_cast hpos
      · exact_mod_cast le_of_lt hlt
    · rw [← hzero]
      have h2 : (0 : Int) < x2 := by omega
      rw [hval x2 h2]
      have hone : (1 : ℝ) ≤ (x2 : ℝ) := by exact_mod_cast h2
      have : log_bin 0 base = 0 := by unfold log_bin; simp
      rw [this]
      rw [Int.le_floor]
      simpa using Real.logb_nonneg hb hone
  · unfold log_bin; simp
  · intro pu pn bu bn syn ack rst fin dur dbase
    refine ⟨rfl, rfl, rfl, rfl⟩

/-- Witness for C3 at base 2 with 1 < 2: instantiates the monotonicity part
at the pair (1, 2). -/
theorem log_bin_monotone_and_floor_witness :
    (0 : Int) ≤ 1 ∧ (1 : Int) < 2 ∧ (1 : ℝ) < 2 ∧
    log_bin 1 2 ≤ log_bin 2 2 :=
  ⟨by norm_num, by norm_num, by norm_num,
   (log_bin_monotone_and_floor 2 1 2 (by norm_num)).1 (by norm_num) (by norm_num)⟩

/-- SYN-without-ACK test on an optional TCP flag bitmask (false for non-TCP
packets). -/
def syn_without_ack (fl : Option Nat) : Bool :=
  match fl with
  | none => false
  | some f => decide (f.land TCP_SYN ≠ 0 ∧ f.land TCP_ACK = 0)

/-- Helper: looking up the upserted key returns the updated (or freshly
created and updated) stats. -/
lemma lookupSrc_upsertSrc (l : List (String × SourceStats)) (k : String)
    (f : SourceStats → SourceStats) :
    lookupSrc (upsertSrc l k f) k = some (f ((lookupSrc l k).getD freshStats)) := by
  induction l with
  | nil => simp [upsertSrc, lookupSrc]
  | cons hd tl ih =>
    obtain ⟨k₀, s⟩ := hd
    by_cases hk : k₀ = k
    · simp [upsertSrc, lookupSrc, hk]
    · simp [upsertSrc, lookupSrc, hk, ih]

/-- C6: `observe_packet` updates exactly the stats of the observed source
(the packet source, as the orchestrator builds the key from the packet):
its unique-destination set gains the destination IP, its unique-port set
gains the destination port, its TCP packet count rises by one exactly when
the packet is TCP, and its SYN-only count rises by one exactly when SYN is
set without ACK. -/
theorem observe_packet_updates_source_stats
    (g : ScanGate) (pkt : PacketRecord) (key : GroupKey)
    (hsrc : key.src_ip = pkt.src_ip) (hdst : key.dst_ip = pkt.dst_ip)
    (hport : key.dst_port = pkt.dst_port) :
    ∃ s₁, lookupSrc (observe_packet g pkt key).by_src pkt.src_ip = some s₁ ∧
      s₁.unique_dsts =
        insert pkt.dst_ip ((lookupSrc g.by_src pkt.src_ip).getD freshStats).unique_dsts ∧
      s₁.unique_ports =
        insert pkt.dst_port ((lookupSrc g.by_src pkt.src_ip).getD freshStats).unique_ports ∧
      s₁.tcp_pkts = ((lookupSrc g.by_src pkt.src_ip).getD freshStats).tcp_pkts +
        (if pkt.tcp_flags.isSome then 1 else 0) ∧
      s₁.syn_only_pkts = ((lookupSrc g.by_src pkt.src_ip).getD freshStats).syn_only_pkts +
        (if syn_without_ack pkt.tcp_flags then 1 else 0) := by
  rw [← hsrc, ← hdst, ← hport]
  refine ⟨observe_update g pkt key ((lookupSrc g.by_src key.src_ip).getD freshStats),
    lookupSrc_upsertSrc g.by_src key.src_ip _, ?_, ?_, ?_, ?_⟩
  all_goals
    generalize (lookupSrc g.by_src key.src_ip).getD freshStats = s₀
  all_goals
    cases htcp : pkt.tcp_flags <;>
      simp only [observe_update, htcp, syn_without_ack, Option.isSome] <;>
      (repeat' split) <;>
      simp_all

/-- Witness packet for C6: a TCP SYN (flags 0x02) to 10.9.0.7 port 445. -/
def pktObs : PacketRecord :=
  { ts := 100
    src_ip := "10.9.0.1"
    dst_ip := "10.9.0.7"
    src_port := 51515
    dst_port := 445
    transport := .tcp
    tcp_flags := some 0x02
    length := 60
    payload_preview := none }

/-- Witness key for C6, derived from `pktObs` the way the orchestrator does. -/
def keyObs : GroupKey :=
  { src_ip := "10.9.0.1"
    dst_ip := "10.9.0.7"
    dst_port := 445
    transport := .tcp
    service := "smb" }

/-- Empty witness gate for C6 (threshold 50, sample cap 20). -/
def gateObs : ScanGate := ⟨50, 20, []⟩

/-- Witness for C6: observing a single SYN packet on an empty gate yields
stats with the destination inserted, the port inserted, one TCP packet and
one SYN-only packet. -/
theorem observe_packet_updates_source_stats_witness :
    ∃ s₁, lookupSrc (observe_packet gateObs pktObs keyObs).by_src pktObs.src_ip = some s₁ ∧
      s₁.unique_dsts =
        insert pktObs.dst_ip
          ((lookupSrc gateObs.by_src pktObs.src_ip).getD freshStats).unique_dsts ∧
      s₁.unique_ports =
        insert pktObs.dst_port
          ((lookupSrc gateObs.by_src pktObs.src_ip).getD freshStats).unique_ports ∧
      s₁.tcp_pkts = ((lookupSrc gateObs.by_src pktObs.src_ip).getD freshStats).tcp_pkts +
        (if pktObs.tcp_flags.isSome then 1 else 0) ∧
      s₁.syn_only_pkts =
        ((lookupSrc gateObs.by_src pktObs.src_ip).getD freshStats).syn_only_pkts +
        (if syn_without_ack pktObs.tcp_flags then 1 else 0) :=
  observe_packet_updates_source_stats gateObs pktObs keyObs rfl rfl rfl

/-- C10: the sampler mutates the aggregate only when it reports doing so:
a `false` return leaves the aggregate (including `http_uri_tokens`) entirely
unchanged, and a `true` return changes nothing but `http_uri_tokens`. -/
theorem sampling_frame_condition (agg : GroupAggregate) (budget : Int)
    (always_keep : List String) (draws : List Bool) :
    ((apply_http_binomial_sampling agg budget always_keep draws).2 = false →
      (apply_http_binomial_sampling agg budget always_keep draws).1 = agg) ∧
    ((apply_http_binomial_sampling agg budget always_keep draws).2 = true →
      (apply_http_binomial_sampling agg budget always_keep draws).1 =
        { agg with http_uri_tokens :=
            (apply_http_binomial_sampling agg budget always_keep draws).1.http_uri_tokens }) := by
  rcases h : agg.http_uri_tokens with _ | tokens <;>
    simp only [apply_http_binomial_sampling, h]
  · simp
  · (repeat' split) <;>
      refine ⟨fun hh => ?_, fun hh => ?_⟩ <;>
      first
        | rfl
        | simp_all

/-- Aggregate used by the C10 witness on its `false` path: two tokens within
a budget of 3, so the sampler reports no change. -/
def aggFrameF : GroupAggregate :=
  { key := keyObs
    first_ts := 0
    last_ts := 5
    pkts_up := 2
    pkts_dn := 1
    bytes_up := 120
    bytes_dn := 60
    flags_syn := 1
    flags_ack := 2
    flags_rst := 0
    flags_fin := 0
    http_uri_tokens := some ["index", "html"]
    ftp_cmd_counts := none
    smb_cmd_counts := none
    payload_up := [[0x47, 0x45, 0x54]]
    payload_dn := [] }

/-- Aggregate used by the C10 witness on its `true` path: four tokens over a
budget of 1. -/
def aggFrameT : GroupAggregate :=
  { aggFrameF with http_uri_tokens := some ["a", "b", "c", "d"] }

/-- Witness for C10: the sampler returns `false` on `aggFrameF` leaving it
untouched, and `true` on `aggFrameT` changing only `http_uri_tokens`. -/
theorem sampling_frame_condition_witness :
    (apply_http_binomial_sampling aggFrameF 3 [] []).2 = false ∧
    (apply_http_binomial_sampling aggFrameF 3 [] []).1 = aggFrameF ∧
    (apply_http_binomial_sampling aggFrameT 1 [] []).2 = true ∧
    (apply_http_binomial_sampling aggFrameT 1 [] []).1 =
      { aggFrameT with http_uri_tokens :=
          (apply_http_binomial_sampling aggFrameT 1 [] []).1.http_uri_tokens } :=
  ⟨by decide,
   (sampling_frame_condition aggFrameF 3 [] []).1 (by decide),
   by decide,
   (sampling_frame_condition aggFrameT 1 [] []).2 (by decide)⟩

/-- Helper: the directional-counter block never touches timestamps. -/
lemma upd_counters_first_ts (a : GroupAggregate) (p : PacketRecord) (d : Direction) :
    (upd_counters a p d).first_ts = a.first_ts := by cases d <;> rfl

/-- Helper: the directional-counter block never touches `last_ts`. -/
lemma upd_counters_last_ts (a : GroupAggregate) (p : PacketRecord) (d : Direction) :
    (upd_counters a p d).last_ts = a.last_ts := by cases d <;> rfl

/-- Helper: the flag-histogram block never touches timestamps. -/
lemma upd_flags_first_ts (a : GroupAggregate) (p : PacketRecord) :
    (upd_flags a p).first_ts = a.first_ts := by
  cases h : p.tcp_flags <;> (simp only [upd_flags, h]; try ((repeat' split) <;> rfl))

/-- Helper: the flag-histogram block never touches `last_ts`. -/
lemma upd_flags_last_ts (a : GroupAggregate) (p : PacketRecord) :
    (upd_flags a p).last_ts = a.last_ts := by
  cases h : p.tcp_flags <;> (simp only [upd_flags, h]; try ((repeat' split) <;> rfl))

/-- Helper: the preview-stash block never touches timestamps. -/
lemma upd_previews_first_ts (a : GroupAggregate) (p : PacketRecord) (d : Direction) :
    (upd_previews a p d).first_ts = a.first_ts := by
  cases h : p.payload_preview <;> cases d <;> simp only [upd_previews, h] <;>
    (repeat' split) <;> rfl

/-- Helper: the preview-stash block never touches `last_ts`. -/
lemma upd_previews_last_ts (a : GroupAggregate) (p : PacketRecord) (d : Direction) :
    (upd_previews a p d).last_ts = a.last_ts := by
  cases h : p.payload_preview <;> cases d <;> simp only [upd_previews, h] <;>
    (repeat' split) <;> rfl

/-- Helper: `update_aggregate` sets `first_ts` to the minimum of the old
value and the packet timestamp, as an if-expression mirroring the source. -/
lemma update_aggregate_first_ts (a : GroupAggregate) (p : PacketRecord) (d : Direction) :
    (update_aggregate a p d).first_ts = if p.ts < a.first_ts then p.ts else a.first_ts := by
  unfold update_aggregate
  rw [upd_previews_first_ts, upd_flags_first_ts, upd_counters_first_ts]
  unfold upd_time
  dsimp only
  (repeat' split) <;> rfl

/-- Helper: `update_aggregate` sets `last_ts` to the maximum of the old
value and the packet timestamp, as an if-expression mirroring the source. -/
lemma update_aggregate_last_ts (a : GroupAggregate) (p : PacketRecord) (d : Direction) :
    (update_aggregate a p d).last_ts = if p.ts > a.last_ts then p.ts else a.last_ts := by
  unfold update_aggregate
  rw [upd_previews_last_ts, upd_flags_last_ts, upd_counters_last_ts]
  unfold upd_time
  dsimp only
  (repeat' split) <;> rfl

/-- C8: every aggregate satisfies `first_ts ≤ last_ts` throughout its
lifetime: a fresh aggregate has equal endpoints, `update_aggregate`
preserves the inequality for any packet timestamp, and an idle roll (for a
non-negative idle threshold) opens the new slice at a timestamp no earlier
than the closed slice's `last_ts`, its fresh aggregate starting exactly at
the packet timestamp. -/
theorem aggregate_first_le_last_invariant :
    (∀ (key : GroupKey) (ts : Int),
      (new_aggregate key ts).first_ts = ts ∧ (new_aggregate key ts).last_ts = ts) ∧
    (∀ (a : GroupAggregate) (p : PacketRecord) (d : Direction),
      a.first_ts ≤ a.last_ts →
      (update_aggregate a p d).first_ts ≤ (update_aggregate a p d).last_ts) ∧
    (∀ (sh : AggregatorShard) (key : GroupKey) (ts : Int) (agg : GroupAggregate),
      0 ≤ sh.idle → lookupKey sh.openAggs key = some agg → sh.idle < ts - agg.last_ts →
      agg.last_ts ≤ ts ∧
      (get_or_create sh key ts).2.first_ts = ts ∧
      (get_or_create sh key ts).2.last_ts = ts) := by
  refine ⟨fun key ts => ⟨rfl, rfl⟩, ?_, ?_⟩
  · intro a p d h
    rw [update_aggregate_first_ts, update_aggregate_last_ts]
    split <;> split <;> linarith
  · intro sh key ts agg hidle hlk hgap
    have hle : agg.last_ts ≤ ts := by linarith
    have hroll : ts - agg.last_ts > sh.idle := hgap
    refine ⟨hle, ?_, ?_⟩ <;>
      simp [get_or_create, hlk, hroll, new_aggregate]

/-- Open aggregate used by the C8 and C2 witnesses (created at time 1000). -/
def aggRoll : GroupAggregate := new_aggregate keyObs 1000

/-- Shard used by the C8 and C2 witnesses: idle threshold 120 seconds, one
open aggregate for `keyObs`. -/
def shRoll : AggregatorShard := ⟨120, [(keyObs, aggRoll)], []⟩

/-- Witness for C8: updating a fresh aggregate with the SYN packet keeps
`first_ts ≤ last_ts`, and a packet at time 1200 against an aggregate idle
since 1000 (gap 200 > 120) rolls to a fresh aggregate starting at 1200. -/
theorem aggregate_first_le_last_invariant_witness :
    ((update_aggregate aggRoll pktObs .up).first_ts ≤
      (update_aggregate aggRoll pktObs .up).last_ts) ∧
    aggRoll.last_ts ≤ 1200 ∧
    (get_or_create shRoll keyObs 1200).2.first_ts = 1200 ∧
    (get_or_create shRoll keyObs 1200).2.last_ts = 1200 :=
  ⟨aggregate_first_le_last_invariant.2.1 aggRoll pktObs .up (by decide),
   (aggregate_first_le_last_invariant.2.2 shRoll keyObs 1200 aggRoll
      (by decide) (by decide) (by decide)).1,
   (aggregate_first_le_last_invariant.2.2 shRoll keyObs 1200 aggRoll
      (by decide) (by decide) (by decide)).2.1,
   (aggregate_first_le_last_invariant.2.2 shRoll keyObs 1200 aggRoll
      (by decide) (by decide) (by decide)).2.2⟩

/-- Helper: the time-bounds block never touches the preview buffers. -/
lemma upd_time_payload (a : GroupAggregate) (p : PacketRecord) :
    (upd_time a p).payload_up = a.payload_up ∧ (upd_time a p).payload_dn = a.payload_dn := by
  unfold upd_time
  dsimp only
  constructor <;> (repeat' split) <;> rfl

/-- Helper: the directional-counter block never touches the preview buffers. -/
lemma upd_counters_payload (a : GroupAggregate) (p : PacketRecord) (d : Direction) :
    (upd_counters a p d).payload_up = a.payload_up ∧
    (upd_counters a p d).payload_dn = a.payload_dn := by
  cases d <;> exact ⟨rfl, rfl⟩

/-- Helper: the flag-histogram block never touches the preview buffers. -/
lemma upd_flags_payload (a : GroupAggregate) (p : PacketRecord) :
    (upd_flags a p).payload_up = a.payload_up ∧ (upd_flags a p).payload_dn = a.payload_dn := by
  cases h : p.tcp_flags <;> simp only [upd_flags, h] <;>
    constructor <;> (repeat' split) <;> trivial

/-- The preview a packet contributes, when any: a present, non-empty payload
preview. -/
def preview_of (p : PacketRecord) : Option Bytes :=
  match p.payload_preview with
  | none => none
  | some pv => if pv = [] then none else some pv

/-- One stash step on a preview buffer: append below the cap, drop at the
cap. -/
def stash (buf : List Bytes) (opt : Option Bytes) : List Bytes :=
  match opt with
  | none => buf
  | some pv => if buf.length < MAX_PREVIEWS_PER_DIR then buf ++ [pv] else buf

/-- Helper: `update_aggregate` transforms the up-direction preview buffer by
exactly one `stash` step of the packet's contribution. -/
lemma update_aggregate_payload_up (a : GroupAggregate) (p : PacketRecord) (d : Direction) :
    (update_aggregate a p d).payload_up =
      stash a.payload_up (if d = .up then preview_of p else none) := by
  unfold update_aggregate
  have h1 := upd_time_payload a p
  have h2 := upd_counters_payload (upd_time a p) p d
  have h3 := upd_flags_payload (upd_counters (upd_time a p) p d) p
  unfold upd_previews stash preview_of
  cases hpv : p.payload_preview <;> cases d <;>
    simp only [hpv, h1.1, h2.1, h3.1, h1.2, h2.2, h3.2] <;>
    (repeat' split) <;>
    simp_all [h1.1, h2.1, h3.1]

/-- Helper: `update_aggregate` transforms the down-direction preview buffer
by exactly one `stash` step of the packet's contribution. -/
lemma update_aggregate_payload_dn (a : GroupAggregate) (p : PacketRecord) (d : Direction) :
    (update_aggregate a p d).payload_dn =
      stash a.payload_dn (if d = .dn then preview_of p else none) := by
  unfold update_aggregate
  have h1 := upd_time_payload a p
  have h2 := upd_counters_payload (upd_time a p) p d
  have h3 := upd_flags_payload (upd_counters (upd_time a p) p d) p
  unfold upd_previews stash preview_of
  cases hpv : p.payload_preview <;> cases d <;>
    simp only [hpv, h1.1, h2.1, h3.1, h1.2, h2.2, h3.2] <;>
    (repeat' split) <;>
    simp_all [h1.2, h2.2, h3.2]

/-- Previews contributed in direction `d` by a packet/direction sequence, in
arrival order. -/
def previews_in (d : Direction) (pkts : List (PacketRecord × Direction)) : List Bytes :=
  pkts.filterMap (fun pd => if pd.2 = d then preview_of pd.1 else none)

/-- Fold of `update_aggregate` over a packet/direction sequence (any
sequence of update calls on one aggregate). -/
def run_updates (agg : GroupAggregate) (pkts : List (PacketRecord × Direction)) :
    GroupAggregate :=
  pkts.foldl (fun a pd => update_aggregate a pd.1 pd.2) agg

/-- Helper: one stash step keeps the buffer within the cap. -/
lemma stash_length_le (buf : List Bytes) (opt : Option Bytes)
    (h : buf.length ≤ MAX_PREVIEWS_PER_DIR) :
    (stash buf opt).length ≤ MAX_PREVIEWS_PER_DIR := by
  cases opt with
  | none => exact h
  | some pv =>
    by_cases hlt : buf.length < MAX_PREVIEWS_PER_DIR
    · simp only [stash, if_pos hlt, List.length_append, List.length_cons, List.length_nil]
      omega
    · simpa [stash, hlt] using h

/-- Helper: a stash step agrees with extending the seen-preview list and
truncating at the cap, provided the buffer is within the cap. -/
lemma stash_take (buf : List Bytes) (tail : List Bytes) (opt : Option Bytes)
    (h : buf.length ≤ MAX_PREVIEWS_PER_DIR) :
    (stash buf opt ++ tail).take MAX_PREVIEWS_PER_DIR =
      ((buf ++ opt.toList) ++ tail).take MAX_PREVIEWS_PER_DIR := by
  cases opt with
  | none => simp [stash]
  | some pv =>
    by_cases hlt : buf.length < MAX_PREVIEWS_PER_DIR
    · simp [stash, hlt, Option.toList]
    · have h1 : MAX_PREVIEWS_PER_DIR ≤ buf.length := by omega
      have h2 : MAX_PREVIEWS_PER_DIR ≤ (buf ++ [pv]).length := by
        simp only [List.length_append, List.length_cons, List.length_nil]
        omega
      simp only [stash, if_neg hlt, Option.toList]
      rw [List.take_append_of_le_length h1, List.take_append_of_le_length h2,
        List.take_append_of_le_length h1]

/-- Helper: after any update sequence starting from buffers within the cap,
each preview buffer equals the initial buffer extended by the previews seen
in that direction, truncated at the cap. -/
lemma run_updates_payload (pkts : List (PacketRecord × Direction)) :
    ∀ (a : GroupAggregate),
      a.payload_up.length ≤ MAX_PREVIEWS_PER_DIR →
      a.payload_dn.length ≤ MAX_PREVIEWS_PER_DIR →
      (run_updates a pkts).payload_up =
        (a.payload_up ++ previews_in .up pkts).take MAX_PREVIEWS_PER_DIR ∧
      (run_updates a pkts).payload_dn =
        (a.payload_dn ++ previews_in .dn pkts).take MAX_PREVIEWS_PER_DIR := by
  induction pkts with
  | nil =>
    intro a hu hd
    constructor <;> simp [run_updates, previews_in, List.take_of_length_le, hu, hd]
  | cons pd rest ih =>
    intro a hu hd
    have hrun : run_updates a (pd :: rest) = run_updates (update_aggregate a pd.1 pd.2) rest :=
      rfl
    have hup := update_aggregate_payload_up a pd.1 pd.2
    have hdn := update_aggregate_payload_dn a pd.1 pd.2
    have hu₁ : (update_aggregate a pd.1 pd.2).payload_up.length ≤ MAX_PREVIEWS_PER_DIR := by
      rw [hup]; exact stash_length_le _ _ hu
    have hd₁ : (update_aggregate a pd.1 pd.2).payload_dn.length ≤ MAX_PREVIEWS_PER_DIR := by
      rw [hdn]; exact stash_length_le _ _ hd
    obtain ⟨ihu, ihd⟩ := ih (update_aggregate a pd.1 pd.2) hu₁ hd₁
    rw [hrun]
    constructor
    · rw [ihu, hup, stash_take _ _ _ hu]
      congr 1
      rw [List.append_assoc]
      congr 1
      simp only [previews_in, List.filterMap_cons]
      cases hopt : (if pd.2 = Direction.up then preview_of pd.1 else none) <;>
        simp [hopt, Option.toList]
    · rw [ihd, hdn, stash_take _ _ _ hd]
      congr 1
      rw [List.append_assoc]
      congr 1
      simp only [previews_in, List.filterMap_cons]
      cases hopt : (if pd.2 = Direction.dn then preview_of pd.1 else none) <;>
        simp [hopt, Option.toList]

/-- C9: after any sequence of `update_aggregate` calls on a fresh aggregate,
each per-direction preview buffer holds exactly the first previews seen in
that direction, truncated at the cap of 12, and in particular never exceeds
the cap (no later preview is appended once full, none is evicted). -/
theorem preview_buffers_hold_first_previews_capped
    (key : GroupKey) (ts : Int) (pkts : List (PacketRecord × Direction)) :
    (run_updates (new_aggregate key ts) pkts).payload_up =
      (previews_in .up pkts).take MAX_PREVIEWS_PER_DIR ∧
    (run_updates (new_aggregate key ts) pkts).payload_dn =
      (previews_in .dn pkts).take MAX_PREVIEWS_PER_DIR ∧
    (run_updates (new_aggregate key ts) pkts).payload_up.length ≤ MAX_PREVIEWS_PER_DIR ∧
    (run_updates (new_aggregate key ts) pkts).payload_dn.length ≤ MAX_PREVIEWS_PER_DIR := by
  obtain ⟨hu, hd⟩ := run_updates_payload pkts (new_aggregate key ts)
    (by simp [new_aggregate]) (by simp [new_aggregate])
  have hu₀ : (run_updates (new_aggregate key ts) pkts).payload_up =
      (previews_in .up pkts).take MAX_PREVIEWS_PER_DIR := by
    simpa [new_aggregate] using hu
  have hd₀ : (run_updates (new_aggregate key ts) pkts).payload_dn =
      (previews_in .dn pkts).take MAX_PREVIEWS_PER_DIR := by
    simpa [new_aggregate] using hd
  refine ⟨hu₀, hd₀, ?_, ?_⟩
  · rw [hu₀]; exact List.length_take_le MAX_PREVIEWS_PER_DIR _
  · rw [hd₀]; exact List.length_take_le MAX_PREVIEWS_PER_DIR _

/-- Synthetic C2 packet: client SYN at time 1000. -/
def pCa : PacketRecord :=
  ⟨1000, "10.9.0.1", "10.9.0.7", 51515, 445, .tcp, some 0x12, 60, none⟩

/-- Synthetic C2 packet: server SYN-ACK (reverse direction) at time 1010. -/
def pCb : PacketRecord :=
  ⟨1010, "10.9.0.7", "10.9.0.1", 445, 51515, .tcp, some 0x12, 60, none⟩

/-- Synthetic C2 packet: client ACK at time 1200, 190 s after the previous
packet (exceeding the 120 s idle threshold). -/
def pCc : PacketRecord :=
  ⟨1200, "10.9.0.1", "10.9.0.7", 51515, 445, .tcp, some 0x10, 60, none⟩

/-- Synthetic C2 packet: client ACK at time 1205. -/
def pCd : PacketRecord :=
  ⟨1205, "10.9.0.1", "10.9.0.7", 51515, 445, .tcp, some 0x10, 60, none⟩

/-- First aggregate slice produced by the C2 synthetic run: span
[1000, 1010], one packet each way. -/
def aggSlice1 : GroupAggregate :=
  { key := keyObs
    first_ts := 1000
    last_ts := 1010
    pkts_up := 1
    pkts_dn := 1
    bytes_up := 60
    bytes_dn := 60
    flags_syn := 2
    flags_ack := 2
    flags_rst := 0
    flags_fin := 0
    http_uri_tokens := none
    ftp_cmd_counts := none
    smb_cmd_counts := none
    payload_up := []
    payload_dn := [] }

/-- Second aggregate slice produced by the C2 synthetic run: span
[1200, 1205], two packets up. -/
def aggSlice2 : GroupAggregate :=
  { key := keyObs
    first_ts := 1200
    last_ts := 1205
    pkts_up := 2
    pkts_dn := 0
    bytes_up := 120
    bytes_dn := 0
    flags_syn := 0
    flags_ack := 2
    flags_rst := 0
    flags_fin := 0
    http_uri_tokens := none
    ftp_cmd_counts := none
    smb_cmd_counts := none
    payload_up := []
    payload_dn := [] }

/-- C2: when a packet arrives for an open aggregate past the idle gap, the
aggregator moves the current aggregate to the finalized list and opens a
fresh one starting at the packet timestamp for the same key; consequently
the synthetic four-packet run on one key with exactly one such gap yields
exactly two finalized aggregates whose combined directional packet counts
equal the number of input packets and whose time spans do not overlap. -/
theorem idle_roll_splits_into_two_slices :
    (∀ (sh : AggregatorShard) (key : GroupKey) (ts : Int) (agg : GroupAggregate),
      lookupKey sh.openAggs key = some agg → sh.idle < ts - agg.last_ts →
      get_or_create sh key ts =
        ({ sh with finalized := sh.finalized ++ [agg],
                   openAggs := setKey sh.openAggs key (new_aggregate key ts) },
         new_aggregate key ts)) ∧
    (finalize_all (run_packets ⟨120, [], []⟩ keyObs [pCa, pCb, pCc, pCd]) =
        [aggSlice1, aggSlice2] ∧
      aggSlice1.pkts_up + aggSlice1.pkts_dn + (aggSlice2.pkts_up + aggSlice2.pkts_dn) =
        [pCa, pCb, pCc, pCd].length ∧
      aggSlice1.last_ts < aggSlice2.first_ts) := by
  constructor
  · intro sh key ts agg hlk hgap
    unfold get_or_create
    rw [hlk]
    simp only [gt_iff_lt, hgap, if_pos]
  · exact ⟨by decide, by decide, by decide⟩

/-- Witness for C2 at a concrete shard: a packet at 1200 against an
aggregate last touched at 1000 with a 120 s idle threshold rolls the
aggregate and opens a fresh slice at 1200. -/
theorem idle_roll_splits_into_two_slices_witness :
    get_or_create shRoll keyObs 1200 =
      ({ shRoll with finalized := shRoll.finalized ++ [aggRoll],
                     openAggs := setKey shRoll.openAggs keyObs (new_aggregate keyObs 1200) },
       new_aggregate keyObs 1200) :=
  idle_roll_splits_into_two_slices.1 shRoll keyObs 1200 aggRoll (by decide) (by decide)

/-- Helper: a token of the lexicon occurring in the list occurs among the
filtered always-keep tokens. -/
lemma mem_ak_filter (tokens always_keep : List String) (t : String)
    (h1 : t ∈ always_keep) (h2 : t ∈ tokens) :
    t ∈ tokens.filter (fun t => decide (t ∈ always_keep)) :=
  List.mem_filter.mpr ⟨h2, by simpa⟩

/-- Helper: the always-keep/other partition preserves total length. -/
lemma ak_other_length (tokens always_keep : List String) :
    (tokens.filter (fun t => decide (t ∈ always_keep))).length +
      (tokens.filter (fun t => decide (t ∉ always_keep))).length = tokens.length := by
  have hnot : (fun t : String => decide (t ∉ always_keep)) =
      (fun t : String => !decide (t ∈ always_keep)) := by
    funext t
    simp [decide_not]
  rw [hnot]
  induction tokens with
  | nil => rfl
  | cons hd tl ih =>
    by_cases h : hd ∈ always_keep <;> simp [List.filter_cons, h] <;> omega

/-- Counterexample aggregate for the sampling-budget claim: a single token,
no lexicon occurrences. -/
def aggCE : GroupAggregate :=
  { key := keyObs
    first_ts := 0
    last_ts := 0
    pkts_up := 1
    pkts_dn := 0
    bytes_up := 60
    bytes_dn := 0
    flags_syn := 0
    flags_ack := 0
    flags_rst := 0
    flags_fin := 0
    http_uri_tokens := some ["x"]
    ftp_cmd_counts := none
    smb_cmd_counts := none
    payload_up := []
    payload_dn := [] }

/-- C1 counterexample: with token list `["x"]`, empty lexicon and budget 0,
the budget satisfies the claim's hypothesis (0 ≥ 0 always-keep occurrences),
yet the sampler leaves the one-token list in place, so the output length
exceeds the budget. -/
theorem sampling_budget_claim_counterexample :
    aggCE.http_uri_tokens = some ["x"] ∧
    (((["x"] : List String).filter
        (fun t => decide (t ∈ ([] : List String)))).length : Int) ≤ 0 ∧
    ∃ out, (apply_http_binomial_sampling aggCE 0 [] []).1.http_uri_tokens = some out ∧
      ¬((out.length : Int) ≤ 0) :=
  ⟨rfl, by decide, ["x"], rfl, by decide⟩

/-- C1 (amended): for a stored token list, any budget that is at least 1 and
at least the number of always-keep-lexicon occurrences in the list, and any
outcome of the per-token draws, the output token list has length at most the
budget and retains every lexicon token present in the input.  (The original
claim without the `budget ≥ 1` bound fails at budget 0, where the sampler
declines to run and leaves a non-empty list in place.) -/
theorem sampling_budget_amended
    (agg : GroupAggregate) (tokens : List String) (budget : Int)
    (always_keep : List String) (draws : List Bool)
    (htok : agg.http_uri_tokens = some tokens)
    (hpos : 1 ≤ budget)
    (hak : ((tokens.filter (fun t => decide (t ∈ always_keep))).length : Int) ≤ budget) :
    ∃ out,
      (apply_http_binomial_sampling agg budget always_keep draws).1.http_uri_tokens =
        some out ∧
      (out.length : Int) ≤ budget ∧
      ∀ t, t ∈ always_keep → t ∈ tokens → t ∈ out := by
  unfold apply_http_binomial_sampling
  rw [htok]
  dsimp only
  rcases List.eq_nil_or_concat tokens with hnil | ⟨_, _, hne⟩
  case inl =>
    subst hnil
    simp only [List.isEmpty_nil, true_or, if_pos]
    exact ⟨[], htok, by simpa using le_trans zero_le_one hpos, fun t _ h => absurd h (by simp)⟩
  case inr =>
    have hne₀ : tokens ≠ [] := by
      rw [hne]; simp
    have hg1 : ¬(tokens.isEmpty = true ∨ budget ≤ 0) := by
      push_neg
      exact ⟨by simpa [List.isEmpty_iff] using hne₀, by omega⟩
    rw [if_neg hg1]
    by_cases hsmall : (tokens.length : Int) ≤ budget
    · rw [if_pos hsmall]
      exact ⟨tokens, htok, hsmall, fun t _ ht => ht⟩
    · rw [if_neg hsmall]
      have hbig : budget < (tokens.length : Int) := lt_of_not_le hsmall
      have hb0 : 0 ≤ budget := le_trans zero_le_one hpos
      have haknat : (tokens.filter (fun t => decide (t ∈ always_keep))).length ≤
          budget.toNat := by omega
      by_cases hot : (tokens.filter (fun t => decide (t ∉ always_keep))).length = 0
      · rw [if_pos hot]
        refine ⟨(tokens.filter (fun t => decide (t ∈ always_keep))).take budget.toNat,
          rfl, ?_, ?_⟩
        · rw [List.take_of_length_le haknat]
          exact hak
        · intro t h1 h2
          rw [List.take_of_length_le haknat]
          exact mem_ak_filter tokens always_keep t h1 h2
      · rw [if_neg hot]
        have hsplit := ak_other_length tokens always_keep
        have hotpos : 0 < (tokens.filter (fun t => decide (t ∉ always_keep))).length := by
          omega
        set akL := (tokens.filter (fun t => decide (t ∈ always_keep))) with hakL
        set otL := (tokens.filter (fun t => decide (t ∉ always_keep))) with hotL
        set rb : Int := max 0 (budget - (akL.length : Int)) with hrbdef
        have hrb : rb = budget - akL.length := by
          rw [hrbdef]
          exact max_eq_right (by omega)
        by_cases hp1 : (1 : Rat) ≤
            (if 0 < rb then min 1 ((rb : Rat) / (otL.length : Rat)) else 0)
        · rw [if_pos hp1]
          have hrbpos : 0 < rb := by
            by_contra hc
            rw [if_neg hc] at hp1
            norm_num at hp1
          rw [if_pos hrbpos] at hp1
          have hdivge : (1 : Rat) ≤ (rb : Rat) / (otL.length : Rat) := (le_min_iff.mp hp1).2
          have hotposQ : (0 : Rat) < (otL.length : Rat) := by exact_mod_cast hotpos
          have hotle : ((otL.length : Int) : Rat) ≤ (rb : Rat) := by
            have := (one_le_div hotposQ).mp hdivge
            push_cast
            push_cast at this
            linarith
          have hotleZ : (otL.length : Int) ≤ rb := by exact_mod_cast hotle
          have hcomb : ((akL ++ otL).length : Int) ≤ budget := by
            rw [List.length_append]
            push_cast
            omega
          rw [if_neg (not_lt.mpr hcomb)]
          exact ⟨akL ++ otL, rfl, hcomb,
            fun t h1 h2 => List.mem_append_left _ (mem_ak_filter tokens always_keep t h1 h2)⟩
        · rw [if_neg hp1]
          by_cases hp0 : (if 0 < rb then min 1 ((rb : Rat) / (otL.length : Rat)) else 0) ≤ 0
          · rw [if_pos hp0]
            have hrb0 : ¬(0 < rb) := by
              intro hrbpos
              rw [if_pos hrbpos] at hp0
              have hotposQ : (0 : Rat) < (otL.length : Rat) := by exact_mod_cast hotpos
              have hrbposQ : (0 : Rat) < (rb : Rat) := by exact_mod_cast hrbpos
              have : (0 : Rat) < min 1 ((rb : Rat) / (otL.length : Rat)) :=
                lt_min one_pos (div_pos hrbposQ hotposQ)
              linarith
            have hakeq : (akL.length : Int) = budget := by omega
            have hcomb : ((akL ++ []).length : Int) ≤ budget := by
              simp [hakeq]
            rw [if_neg (not_lt.mpr hcomb)]
            exact ⟨akL ++ [], rfl, hcomb,
              fun t h1 h2 => List.mem_append_left _ (mem_ak_filter tokens always_keep t h1 h2)⟩
          · rw [if_neg hp0]
            by_cases hcut : budget < ((akL ++ select_by_draws otL draws).length : Int)
            · rw [if_pos hcut]
              refine ⟨(akL ++ select_by_draws otL draws).take budget.toNat, rfl, ?_, ?_⟩
              · have := List.length_take_le budget.toNat (akL ++ select_by_draws otL draws)
                omega
              · intro t h1 h2
                rw [List.take_append_eq_append_take, List.take_of_length_le haknat]
                exact List.mem_append_left _ (mem_ak_filter tokens always_keep t h1 h2)
            · rw [if_neg hcut]
              exact ⟨akL ++ select_by_draws otL draws, rfl, not_lt.mp hcut,
                fun t h1 h2 =>
                  List.mem_append_left _ (mem_ak_filter tokens always_keep t h1 h2)⟩

/-- Witness aggregate for the amended sampling claim: four tokens, one of
which is in the lexicon. -/
def aggW1 : GroupAggregate :=
  { aggCE with http_uri_tokens := some ["or", "x", "y", "z"] }

/-- Witness for the amended C1 at budget 2, lexicon `["or"]`, and one
concrete draw outcome. -/
theorem sampling_budget_amended_witness :
    aggW1.http_uri_tokens = some ["or", "x", "y", "z"] ∧
    (1 : Int) ≤ 2 ∧
    (((["or", "x", "y", "z"] : List String).filter
        (fun t => decide (t ∈ (["or"] : List String)))).length : Int) ≤ 2 ∧
    ∃ out,
      (apply_http_binomial_sampling aggW1 2 ["or"]
          [true, false, false]).1.http_uri_tokens = some out ∧
      (out.length : Int) ≤ 2 ∧
      ∀ t, t ∈ (["or"] : List String) → t ∈ (["or", "x", "y", "z"] : List String) → t ∈ out :=
  ⟨rfl, by decide, by decide,
   sampling_budget_amended aggW1 ["or", "x", "y", "z"] 2 ["or"] [true, false, false]
     rfl (by decide) (by decide)⟩
